import Mathlib

/-!
Verification development for the TS1 sprite compiler (`src/spr.rs`).

The definitions below are a shallow embedding of `Sprite::to_spr1_chunk_bytes`
and `Sprite::to_spr2_chunk_bytes`.  Pixel buffers are modelled as `List Nat`
(byte values), machine integers as `Nat`/`Int` with explicit field-width
guards, and the Rust `while` loops as fuel-indexed recursions (the fuel passed
by the top-level wrappers strictly dominates the loop counters, which advance
by at least one per iteration; exhaustion is mapped to an error so that it can
never be mistaken for a successful run).  Rust panics (failed `try_from`
conversions / `assert!` = encoding overflow, out-of-range slice indexing) are
modelled as `Except` errors, since a panic aborts the encoder without
producing output.

Naming note: the Rust `RowCommand::Opaque` and `RowCommand::OpaqueRepeat`
constructors are rendered here as `solid` and `solidRepeat` (the Rust name is
a Lean keyword), and `RowCommand::End` as `stop`.
-/

/-- Failure modes of the embedded encoder: `overflow` models a panicking
`try_from`/`assert!` on a command length or count field, `oob` models an
out-of-range pixel-buffer index, `fuel` marks fuel exhaustion of the loop
embedding (never reached for the inputs used in the theorems below). -/
inductive EncErr where
  | overflow
  | oob
  | fuel
deriving DecidableEq

/-- Little-endian bytes of a 16-bit value (`u16::to_le_bytes`). -/
def toLE16 (n : Nat) : List Nat := [n % 256, n / 256 % 256]

/-- Little-endian bytes of a 32-bit value (`u32::to_le_bytes`). -/
def toLE32 (n : Nat) : List Nat :=
  [n % 256, n / 256 % 256, n / 65536 % 256, n / 16777216 % 256]

/-- Little-endian bytes of an `i16` (two's complement). -/
def toLE16i (i : Int) : List Nat := toLE16 ((i % 65536).toNat)

/-- Little-endian bytes of an `i32` (two's complement). -/
def toLE32i (i : Int) : List Nat := toLE32 ((i % 4294967296).toNat)

/-- SPR1 row commands (`RowCommand` in `to_spr1_chunk_bytes`), together with
the data the encoder writes after the opcode/length pair.  `solid` is the
Rust `Opaque` command: its `bytes` field holds the payload exactly as pushed
into `row_commands`, including the single zero pad byte appended after an
odd-length literal.  `solidRepeat` is the Rust `OpaqueRepeat` command with
its representative color byte (the encoder always follows it with one zero
byte, which `spr1CmdBytes` emits). -/
inductive Spr1Cmd where
  | startSprite
  | start (n : Nat)
  | solid (n : Nat) (bytes : List Nat)
  | solidRepeat (n : Nat) (c : Nat)
  | transparentRun (n : Nat)
  | transparentRows (n : Nat)
  | endSprite
deriving DecidableEq

/-- Byte serialization of one SPR1 command, matching the opcode table of
`row_command` (StartSprite=0, Start=4, Opaque=3, OpaqueRepeat=2,
Transparent=1, TransparentRows=9, EndSprite=5) and the bytes the encoder
pushes after each opcode/length pair. -/
def spr1CmdBytes : Spr1Cmd → List Nat
  | .startSprite => [0, 0]
  | .start n => [4, n]
  | .solid n bytes => [3, n] ++ bytes
  | .solidRepeat n c => [2, n, c, 0]
  | .transparentRun n => [1, n]
  | .transparentRows n => [9, n]
  | .endSprite => [5, 0]

/-- Bytes of a command sequence in emission order. -/
def spr1CmdsBytes (cmds : List Spr1Cmd) : List Nat :=
  (cmds.map spr1CmdBytes).flatten

deriving instance DecidableEq for Except

/-- The scan of lines 201–209: starting from `transparent_width = tw`, count
how many consecutive pixels from `x` on are the transparent color.  The scan
advances while `x + tw < width`, so any fuel of at least `width` makes the
recursion equal to the source loop. -/
def transparentScanAux (pixels : List Nat) (t rowIndex width x : Nat) :
    Nat → Nat → Nat
  | 0, tw => tw
  | fuel + 1, tw =>
    if x + tw < width then
      if pixels.getD (rowIndex + x + tw) 0 = t then
        transparentScanAux pixels t rowIndex width x fuel (tw + 1)
      else tw
    else tw

/-- The scan of lines 248–256: count consecutive pixels equal to
`first` starting at `range_x` (`repeated_width`). -/
def repeatedScanAux (pixels : List Nat) (first rowIndex width rangeX : Nat) :
    Nat → Nat → Nat
  | 0, rw => rw
  | fuel + 1, rw =>
    if rangeX + rw < width then
      if pixels.getD (rowIndex + rangeX + rw) 0 = first then
        repeatedScanAux pixels first rowIndex width rangeX fuel (rw + 1)
      else rw
    else rw

/-- The scan of lines 286–296: count a maximal stretch of pairwise-unequal,
non-transparent pixels starting at `range_x` (`unique_width`), threading the
previous pixel value. -/
def uniqueScanAux (pixels : List Nat) (t rowIndex width rangeX : Nat) :
    Nat → Nat → Nat → Nat
  | 0, _, uw => uw
  | fuel + 1, prev, uw =>
    if rangeX + uw < width then
      let c := pixels.getD (rowIndex + rangeX + uw) 0
      if c ≠ prev ∧ c ≠ t then
        uniqueScanAux pixels t rowIndex width rangeX fuel c (uw + 1)
      else uw
    else uw

/-- Result of one iteration of the inner `while range_x < width` loop of the
SPR1 row encoder (lines 223–304): an encoding failure, a `break` out of the
loop (carrying the final `range_x` and literal buffer), or a normal step to
the next iteration (carrying commands emitted during the step). -/
inductive InnerStep where
  | err (e : EncErr)
  | brk (rangeX : Nat) (pending : Option (List Nat))
  | next (rangeX : Nat) (pending : Option (List Nat)) (emitted : List Spr1Cmd)
deriving DecidableEq

/-- One iteration of the inner loop of lines 223–304 of `to_spr1_chunk_bytes`.
`pending` is `ongoing_unique_range`; `x` is the (fixed) start of the
non-transparent segment; `palPos` is `palette_chunk_id.as_i16().is_positive()`.
Note three quirks of the source that are reproduced faithfully: the
single-pixel pushes at lines 230 and 240 and the literal copy at line 299
read from index `row_index + x` (not `range_x`), and the repeat color byte at
line 267 reads `pixels[row_index + range_x + x]`, an index that can exceed
the buffer length (modelled by the `oob` error). -/
def spr1InnerBody (pixels : List Nat) (t : Nat) (palPos : Bool)
    (rowIndex width x rangeX : Nat) (pending : Option (List Nat)) : InnerStep :=
  let first := pixels.getD (rowIndex + rangeX) 0
  if first = t then
    .brk rangeX pending
  else if rangeX + 1 = width then
    .brk (rangeX + 1) (some (pending.getD [] ++ [pixels.getD (rowIndex + x) 0]))
  else
    let nextPixel := pixels.getD (rowIndex + rangeX + 1) 0
    if nextPixel = t then
      .brk (rangeX + 1) (some (pending.getD [] ++ [pixels.getD (rowIndex + x) 0]))
    else if first = nextPixel then
      let rw := repeatedScanAux pixels first rowIndex width rangeX width 1
      if 8 ≤ rw then
        match pending with
        | some l => .brk rangeX (some l)
        | none =>
          if 255 < rw then .err .overflow
          else if palPos then
            match pixels.get? (rowIndex + rangeX + x) with
            | some c => .next (rangeX + rw) none [.solidRepeat rw c]
            | none => .err .oob
          else .next (rangeX + rw) none [.solidRepeat rw 0]
      else
        let appended := if palPos then (pixels.drop (rowIndex + rangeX)).take rw
          else List.replicate rw 0
        .next (rangeX + rw) (some (pending.getD [] ++ appended)) []
    else
      let uw := uniqueScanAux pixels t rowIndex width rangeX width first 1
      .next (rangeX + uw) (some (pending.getD [] ++ (pixels.drop (rowIndex + x)).take uw)) []

/-- The inner `while range_x < width` loop (lines 223–304), iterating
`spr1InnerBody` until a break, a failure, or `range_x ≥ width`. -/
def spr1Inner (pixels : List Nat) (t : Nat) (palPos : Bool) (rowIndex width x : Nat) :
    Nat → Nat → Option (List Nat) → List Spr1Cmd →
    Except EncErr (Nat × Option (List Nat) × List Spr1Cmd)
  | 0, _, _, _ => .error .fuel
  | fuel + 1, rangeX, pending, emitted =>
    if rangeX < width then
      match spr1InnerBody pixels t palPos rowIndex width x rangeX pending with
      | .err e => .error e
      | .brk rx p => .ok (rx, p, emitted)
      | .next rx p em =>
        spr1Inner pixels t palPos rowIndex width x fuel rx p (emitted ++ em)
    else .ok (rangeX, pending, emitted)

/-- The literal-buffer flush of lines 308–320: emit the pending literal as an
`Opaque` command (length byte checked against 255), appending one zero pad
byte when the literal length is odd. -/
def spr1FlushCmds : Option (List Nat) → Except EncErr (List Spr1Cmd)
  | none => .ok []
  | some l =>
    if 255 < l.length then .error .overflow
    else .ok [.solid l.length (l ++ (if l.length % 2 ≠ 0 then [0] else []))]

/-- One iteration of the outer `while x < width` loop of the SPR1 row encoder
(lines 199–321).  Returns `none` for the `break` on a transparent run that
reaches the row end (line 212), otherwise the next `x` and the commands
emitted during the iteration (inner-loop emissions followed by the flush). -/
def spr1RowStep (pixels : List Nat) (t : Nat) (palPos : Bool) (rowIndex width x : Nat) :
    Except EncErr (Option (Nat × List Spr1Cmd)) :=
  if pixels.getD (rowIndex + x) 0 = t then
    let tw := transparentScanAux pixels t rowIndex width x width 1
    if x + tw = width then .ok none
    else if 255 < tw then .error .overflow
    else .ok (some (x + tw, [.transparentRun tw]))
  else
    match spr1Inner pixels t palPos rowIndex width x (width + 1) x none [] with
    | .error e => .error e
    | .ok (rx, pending, emitted) =>
      match spr1FlushCmds pending with
      | .error e => .error e
      | .ok fl => .ok (some (rx, emitted ++ fl))

/-- The outer `while x < width` loop of the SPR1 row encoder. -/
def spr1XLoop (pixels : List Nat) (t : Nat) (palPos : Bool) (rowIndex width : Nat) :
    Nat → Nat → List Spr1Cmd → Except EncErr (List Spr1Cmd)
  | 0, _, _ => .error .fuel
  | fuel + 1, x, acc =>
    if x < width then
      match spr1RowStep pixels t palPos rowIndex width x with
      | .error e => .error e
      | .ok none => .ok acc
      | .ok (some (x2, em)) => spr1XLoop pixels t palPos rowIndex width fuel x2 (acc ++ em)
    else .ok acc

/-- The commands of one encoded SPR1 row: the row body produced by the
`x` loop, with a fresh scan starting at `x = 0`. -/
def spr1RowEncode (pixels : List Nat) (t : Nat) (palPos : Bool) (rowIndex width : Nat) :
    Except EncErr (List Spr1Cmd) :=
  spr1XLoop pixels t palPos rowIndex width (width + 1) 0 []

/-- The `while y < height` loop of `to_spr1_chunk_bytes` (lines 177–331):
per row, either the transparent-rows shortcut (lines 183–194) or an encoded
row wrapped in a `Start` command whose length is 2 plus the row body's byte
length (lines 323–328). -/
def spr1YLoop (pixels : List Nat) (t : Nat) (palPos : Bool) (width height : Nat) :
    Nat → Nat → List Spr1Cmd → Except EncErr (List Spr1Cmd)
  | 0, _, _ => .error .fuel
  | fuel + 1, y, acc =>
    if y < height then
      let rowIndex := y * width
      let trc := match (pixels.drop rowIndex).findIdx? (fun p => p != t) with
        | some i => i / width
        | none => 0
      if 1 ≤ trc then
        if 255 < trc then .error .overflow
        else spr1YLoop pixels t palPos width height fuel (y + trc) (acc ++ [.transparentRows trc])
      else
        match spr1RowEncode pixels t palPos rowIndex width with
        | .error e => .error e
        | .ok rowCmds =>
          let bodyLen := (spr1CmdsBytes rowCmds).length
          if 255 < bodyLen then .error .overflow
          else if 255 < 2 + bodyLen then .error .overflow
          else spr1YLoop pixels t palPos width height fuel (y + 1)
            (acc ++ [.start (2 + bodyLen)] ++ rowCmds)
    else .ok acc

/-- The full command sequence of one SPR1 frame: the leading start-of-sprite
marker, the encoded rows, and the trailing end-of-sprite marker. -/
def spr1FrameCmds (pixels : List Nat) (t : Nat) (palPos : Bool) (width height : Nat) :
    Except EncErr (List Spr1Cmd) :=
  match spr1YLoop pixels t palPos width height (height + 1) 0 [] with
  | .error e => .error e
  | .ok body => .ok ([.startSprite] ++ body ++ [.endSprite])

/-- A decoded channel image: dimensions as returned by the bitmap decoder and
the row-major 8-bit pixel buffer. -/
structure Spr1Image where
  width : Nat
  height : Nat
  pixels : List Nat
deriving DecidableEq

/-- One SPR1 frame descriptor with its decoded color and depth channels
(the alpha channel is not consumed by SPR1). -/
structure Spr1Frame where
  colorImage : Spr1Image
  depthImage : Spr1Image
  transparentColorIndex : Nat
deriving DecidableEq

/-- The encoded bytes of one SPR1 frame (lines 120–337): channel selection and
transparent-index substitution for custom wall styles, the 8-byte frame
header (4 reserved zero bytes, height `u16`, width `u16`), and the serialized
command stream. -/
def spr1FrameBytes (isCustomWallStyle palPos : Bool) (f : Spr1Frame) :
    Except EncErr (List Nat) :=
  let img := if isCustomWallStyle then f.depthImage else f.colorImage
  let t := if isCustomWallStyle then 255 else f.transparentColorIndex
  if 65535 < img.height then .error .overflow
  else if 65535 < img.width then .error .overflow
  else match spr1FrameCmds img.pixels t palPos img.width img.height with
  | .error e => .error e
  | .ok cmds => .ok ([0, 0, 0, 0] ++ toLE16 img.height ++ toLE16 img.width ++ spr1CmdsBytes cmds)

/-- Encode every frame of the sprite in order (the `for frame in
&self.sprite_frames` loop), failing on the first frame that fails. -/
def spr1FramesBytes (custom palPos : Bool) : List Spr1Frame → Except EncErr (List (List Nat))
  | [] => .ok []
  | f :: fs =>
    match spr1FrameBytes custom palPos f with
    | .error e => .error e
    | .ok d =>
      match spr1FramesBytes custom palPos fs with
      | .error e => .error e
      | .ok ds => .ok (d :: ds)

/-- The offset table of lines 347–354 / 558–563: the running sum of encoded
frame lengths, starting at `base` (the payload header size plus 4 bytes per
frame). -/
def addrTable (base : Nat) : List Nat → List Nat
  | [] => []
  | l :: ls => base :: addrTable (base + l) ls

/-- An SPR1 sprite asset.  `palId` models `palette_chunk_id` (its `iff.rs`
definition is not part of this repository; modelled from the spec as an
integer palette reference id), `declaredFrameCount` the `@framecount`
attribute (`i32`). -/
structure Spr1Sprite where
  palId : Int
  declaredFrameCount : Int
  isCustomWallStyle : Bool
  frames : List Spr1Frame
deriving DecidableEq

/-- The SPR1 chunk payload `spr1_data` of lines 340–358: version 504, the
declared frame count (`u32::try_from(self.sprite_frame_count)`), the palette
id as `i32`, the offset table (based at the 12-byte header plus 4 bytes per
declared frame), and the concatenated frame data. -/
def spr1Data (s : Spr1Sprite) : Except EncErr (List Nat) :=
  if s.declaredFrameCount < 0 then .error .overflow
  else if 4294967296 ≤ s.declaredFrameCount then .error .overflow
  else match spr1FramesBytes s.isCustomWallStyle (decide (0 < s.palId)) s.frames with
  | .error e => .error e
  | .ok datas =>
    let lens := datas.map List.length
    let base := 12 + 4 * s.declaredFrameCount.toNat
    if 4294967296 ≤ base + lens.sum then .error .overflow
    else .ok (toLE32 504 ++ toLE32 s.declaredFrameCount.toNat ++ toLE32i s.palId
      ++ ((addrTable base lens).map toLE32).flatten ++ datas.flatten)

/-- SPR2 row commands (`RowCommand` in `to_spr2_chunk_bytes`).  `solid` is the
Rust `Opaque` command and `stop` the Rust `End` command.  The `bytes` fields
hold the payload exactly as pushed into `row_commands`: depth/color pairs for
`solid`, depth/color/shifted-alpha triples for `translucent` followed by the
single zero pad byte after an odd pixel count. -/
inductive Spr2Cmd where
  | start (n : Nat)
  | solid (n : Nat) (bytes : List Nat)
  | translucent (n : Nat) (bytes : List Nat)
  | transparentRun (n : Nat)
  | transparentRows (n : Nat)
  | stop
deriving DecidableEq

/-- Byte serialization of one SPR2 command: a 16-bit little-endian word whose
top 3 bits are the opcode of `row_command` (Start=000, Opaque=001,
Translucent=010, Transparent=011, TransparentRows=100, End=101) or-ed with
the 13-bit length, followed by the payload bytes. -/
def spr2CmdBytes : Spr2Cmd → List Nat
  | .start n => toLE16 (0 ||| n)
  | .solid n bytes => toLE16 (8192 ||| n) ++ bytes
  | .translucent n bytes => toLE16 (16384 ||| n) ++ bytes
  | .transparentRun n => toLE16 (24576 ||| n)
  | .transparentRows n => toLE16 (32768 ||| n)
  | .stop => toLE16 (40960 ||| 0)

/-- Bytes of an SPR2 command sequence in emission order. -/
def spr2CmdsBytes (cmds : List Spr2Cmd) : List Nat :=
  (cmds.map spr2CmdBytes).flatten

/-- The three pixel classes of the SPR2 encoder. -/
inductive Spr2Class where
  | transparent
  | translucent
  | solid
deriving DecidableEq

/-- Per-pixel classification of the SPR2 row encoder (lines 460–463, 482,
510): transparent when the color value equals the frame's transparent color
index; otherwise translucent when the alpha value shifted right by 3 is
below 31; otherwise opaque (`solid`). -/
def spr2Class (t p a : Nat) : Spr2Class :=
  if p = t then .transparent
  else if a >>> 3 < 31 then .translucent
  else .solid

/-- The scan of lines 464–472: count consecutive pixels of the transparent
color starting at `x`. -/
def spr2TransparentScanAux (pp : List Nat) (t rowIndex width x : Nat) :
    Nat → Nat → Nat
  | 0, tw => tw
  | fuel + 1, tw =>
    if x + tw < width then
      if pp.getD (rowIndex + x + tw) 0 = t then
        spr2TransparentScanAux pp t rowIndex width x fuel (tw + 1)
      else tw
    else tw

/-- The scan of lines 483–493: count consecutive pixels whose color differs
from the transparent index and whose shifted alpha differs from 31
(`translucent_color_width`). -/
def spr2TranslucentScanAux (pp pa : List Nat) (t rowIndex width x : Nat) :
    Nat → Nat → Nat
  | 0, k => k
  | fuel + 1, k =>
    if x + k < width then
      let p := pp.getD (rowIndex + x + k) 0
      let a := (pa.getD (rowIndex + x + k) 0) >>> 3
      if p ≠ t ∧ a ≠ 31 then
        spr2TranslucentScanAux pp pa t rowIndex width x fuel (k + 1)
      else k
    else k

/-- The scan of lines 511–521: count consecutive pixels whose color differs
from the transparent index and whose shifted alpha equals 31
(`color_width`). -/
def spr2SolidScanAux (pp pa : List Nat) (t rowIndex width x : Nat) :
    Nat → Nat → Nat
  | 0, k => k
  | fuel + 1, k =>
    if x + k < width then
      let p := pp.getD (rowIndex + x + k) 0
      let a := (pa.getD (rowIndex + x + k) 0) >>> 3
      if p ≠ t ∧ a = 31 then
        spr2SolidScanAux pp pa t rowIndex width x fuel (k + 1)
      else k
    else k

/-- The translucent payload of lines 499–503: per pixel, the depth byte, the
color byte, and the alpha byte shifted right by 3, starting at buffer
index `i`. -/
def spr2Triples (pz pp pa : List Nat) (i : Nat) : Nat → List Nat
  | 0 => []
  | n + 1 =>
    pz.getD i 0 :: pp.getD i 0 :: ((pa.getD i 0) >>> 3) ::
      spr2Triples pz pp pa (i + 1) n

/-- The opaque payload of lines 527–530: per pixel, the depth byte and the
color byte, starting at buffer index `i`. -/
def spr2Pairs (pz pp : List Nat) (i : Nat) : Nat → List Nat
  | 0 => []
  | n + 1 => pz.getD i 0 :: pp.getD i 0 :: spr2Pairs pz pp (i + 1) n

/-- One iteration of the `while x < width` loop of the SPR2 row encoder
(lines 459–534).  Returns `none` for the `break` on a transparent run
reaching the row end (line 474), otherwise the next `x` and the emitted
command.  Each emitted length passes the `u16::try_from` conversion and the
13-bit `assert!` of `row_command`, modelled by the two overflow guards. -/
def spr2RowStep (pp pz pa : List Nat) (t rowIndex width x : Nat) :
    Except EncErr (Option (Nat × List Spr2Cmd)) :=
  let p := pp.getD (rowIndex + x) 0
  let a := pa.getD (rowIndex + x) 0
  match spr2Class t p a with
  | .transparent =>
    let tw := spr2TransparentScanAux pp t rowIndex width x width 1
    if x + tw = width then .ok none
    else if 65535 < tw then .error .overflow
    else if 8191 < tw then .error .overflow
    else .ok (some (x + tw, [.transparentRun tw]))
  | .translucent =>
    let tcw := spr2TranslucentScanAux pp pa t rowIndex width x width 1
    if 65535 < tcw then .error .overflow
    else if 8191 < tcw then .error .overflow
    else .ok (some (x + tcw,
      [.translucent tcw (spr2Triples pz pp pa (rowIndex + x) tcw ++
        (if tcw % 2 = 1 then [0] else []))]))
  | .solid =>
    let cw := spr2SolidScanAux pp pa t rowIndex width x width 1
    if 65535 < cw then .error .overflow
    else if 8191 < cw then .error .overflow
    else .ok (some (x + cw, [.solid cw (spr2Pairs pz pp (rowIndex + x) cw)]))

/-- The `while x < width` loop of the SPR2 row encoder. -/
def spr2XLoop (pp pz pa : List Nat) (t rowIndex width : Nat) :
    Nat → Nat → List Spr2Cmd → Except EncErr (List Spr2Cmd)
  | 0, _, _ => .error .fuel
  | fuel + 1, x, acc =>
    if x < width then
      match spr2RowStep pp pz pa t rowIndex width x with
      | .error e => .error e
      | .ok none => .ok acc
      | .ok (some (x2, em)) => spr2XLoop pp pz pa t rowIndex width fuel x2 (acc ++ em)
    else .ok acc

/-- The commands of one encoded SPR2 row body. -/
def spr2RowEncode (pp pz pa : List Nat) (t rowIndex width : Nat) :
    Except EncErr (List Spr2Cmd) :=
  spr2XLoop pp pz pa t rowIndex width (width + 1) 0 []

/-- The `while y < height` loop of `to_spr2_chunk_bytes` (lines 440–543):
per row, either the transparent-rows shortcut (scanning the color channel,
lines 446–456) or an encoded row wrapped in a `Start` command whose length is
2 plus the row body's byte length (lines 536–540). -/
def spr2YLoop (pp pz pa : List Nat) (t : Nat) (width height : Nat) :
    Nat → Nat → List Spr2Cmd → Except EncErr (List Spr2Cmd)
  | 0, _, _ => .error .fuel
  | fuel + 1, y, acc =>
    if y < height then
      let rowIndex := y * width
      let trc := match (pp.drop rowIndex).findIdx? (fun p => p != t) with
        | some i => i / width
        | none => 0
      if 1 ≤ trc then
        if 65535 < trc then .error .overflow
        else if 8191 < trc then .error .overflow
        else spr2YLoop pp pz pa t width height fuel (y + trc) (acc ++ [.transparentRows trc])
      else
        match spr2RowEncode pp pz pa t rowIndex width with
        | .error e => .error e
        | .ok rowCmds =>
          let bodyLen := (spr2CmdsBytes rowCmds).length
          if 65535 < bodyLen then .error .overflow
          else if 8191 < 2 + bodyLen then .error .overflow
          else spr2YLoop pp pz pa t width height fuel (y + 1)
            (acc ++ [.start (2 + bodyLen)] ++ rowCmds)
    else .ok acc

/-- The full command sequence of one SPR2 frame: encoded rows followed by the
trailing `End` marker (there is no leading marker in this format). -/
def spr2FrameCmds (pp pz pa : List Nat) (t : Nat) (width height : Nat) :
    Except EncErr (List Spr2Cmd) :=
  match spr2YLoop pp pz pa t width height (height + 1) 0 [] with
  | .error e => .error e
  | .ok body => .ok (body ++ [.stop])

/-- One SPR2 frame descriptor with its three decoded channel buffers, each
already cropped to the frame rectangle (the `read_rect` calls of
lines 398–400). -/
structure Spr2Frame where
  boundsLeft : Int
  boundsTop : Int
  boundsRight : Int
  boundsBottom : Int
  palId : Int
  transparentColorIndex : Nat
  pixelsP : List Nat
  pixelsZ : List Nat
  pixelsA : List Nat
deriving DecidableEq

/-- The encoded bytes of one SPR2 frame (lines 372–548): the width/height
derived from the bounding rectangle (`u32::try_from` of the differences,
modelled by the negativity guards), the frame header (width `u16`, height
`u16`, flags `0b0111` as `u32`, palette id `i16`, transparent color index
widened to `u16`, bounds top `u16`, bounds left `u16`), and the serialized
command stream. -/
def spr2FrameBytes (f : Spr2Frame) : Except EncErr (List Nat) :=
  if f.boundsRight - f.boundsLeft < 0 then .error .overflow
  else if f.boundsBottom - f.boundsTop < 0 then .error .overflow
  else
    let width := (f.boundsRight - f.boundsLeft).toNat
    let height := (f.boundsBottom - f.boundsTop).toNat
    if 65535 < width then .error .overflow
    else if 65535 < height then .error .overflow
    else if f.boundsTop < 0 ∨ (65535 : Int) < f.boundsTop then .error .overflow
    else if f.boundsLeft < 0 ∨ (65535 : Int) < f.boundsLeft then .error .overflow
    else match spr2FrameCmds f.pixelsP f.pixelsZ f.pixelsA f.transparentColorIndex width height with
    | .error e => .error e
    | .ok cmds =>
      .ok (toLE16 width ++ toLE16 height ++ toLE32 7 ++ toLE16i f.palId
        ++ toLE16 f.transparentColorIndex ++ toLE16 f.boundsTop.toNat
        ++ toLE16 f.boundsLeft.toNat ++ spr2CmdsBytes cmds)

/-- Encode every SPR2 frame in order. -/
def spr2FramesBytes : List Spr2Frame → Except EncErr (List (List Nat))
  | [] => .ok []
  | f :: fs =>
    match spr2FrameBytes f with
    | .error e => .error e
    | .ok d =>
      match spr2FramesBytes fs with
      | .error e => .error e
      | .ok ds => .ok (d :: ds)

/-- An SPR2 sprite asset.  `declaredFrameCount` models the `@framecount`
attribute, which `to_spr2_chunk_bytes` never reads. -/
structure Spr2Sprite where
  palId : Int
  declaredFrameCount : Int
  frames : List Spr2Frame
deriving DecidableEq

/-- The SPR2 chunk payload `spr2_data` of lines 551–567: version 1000, the
frame count taken from `self.sprite_frames.len()`, the palette id as `i32`,
the offset table (based at the 12-byte header plus 4 bytes per actual
frame), and the concatenated frame data. -/
def spr2Data (s : Spr2Sprite) : Except EncErr (List Nat) :=
  match spr2FramesBytes s.frames with
  | .error e => .error e
  | .ok datas =>
    if 4294967296 ≤ s.frames.length then .error .overflow
    else
      let lens := datas.map List.length
      let base := 4 * s.frames.length + 12
      if 4294967296 ≤ base + lens.sum then .error .overflow
      else .ok (toLE32 1000 ++ toLE32 s.frames.length ++ toLE32i s.palId
        ++ ((addrTable base lens).map toLE32).flatten ++ datas.flatten)

/-- Reference decoder for one SPR1 row, following the expansion stated by the
specification: a transparent command expands to the transparent color
repeated by its count, an opaque command to its payload pixel values (the
first `n` payload bytes, excluding the pad byte), an opaque-repeat command to
its color byte repeated by its count, and the unencoded trailing tail of the
row to the transparent color. -/
def spr1DecodeRowCmds (t width : Nat) (cmds : List Spr1Cmd) : List Nat :=
  let core := (cmds.map fun c => match c with
    | .transparentRun n => List.replicate n t
    | .solid n bytes => bytes.take n
    | .solidRepeat n c => List.replicate n c
    | _ => []).flatten
  core ++ List.replicate (width - core.length) t

/-- Command classifier used to count transparent-rows commands. -/
def Spr1Cmd.isTransparentRows : Spr1Cmd → Bool
  | .transparentRows _ => true
  | _ => false

/-- C1: the round-trip claim fails on the code.  For the SPR1 row `[1, 1, 2]`
(width 3, transparent color 0, positive palette id) the encoder emits a
single opaque literal whose payload is `[1, 1, 1]`: when the scan reaches the
last pixel of the row, line 230 of `spr.rs` pushes `pixels[row_index + x]`
(the segment start, value 1) instead of `pixels[row_index + range_x]` (the
current pixel, value 2).  Expanding the emitted commands therefore yields
`[1, 1, 1]`, not the original row `[1, 1, 2]`. -/
theorem spr1_roundtrip_fails_on_112 :
    spr1RowEncode [1, 1, 2] 0 true 0 3 = .ok [.solid 3 [1, 1, 1, 0]] ∧
    spr1DecodeRowCmds 0 3 [.solid 3 [1, 1, 1, 0]] = [1, 1, 1] ∧
    [1, 1, 1] ≠ [1, 1, 2] := by decide

/-- C10: the claim fails on the code.  For an SPR1 frame of width 16 and
height 1 whose pixel buffer (length 16 = 16 × 1) is eight transparent pixels
followed by a run of eight pixels of value 5, the opaque-repeat emission at
line 267 of `spr.rs` reads `pixels[row_index + range_x + x]` =
`pixels[0 + 8 + 8]` = `pixels[16]`, one past the end of the buffer, so the
encoder aborts with an out-of-range access. -/
theorem spr1_encode_aborts_out_of_range :
    spr1FrameCmds [0, 0, 0, 0, 0, 0, 0, 0, 5, 5, 5, 5, 5, 5, 5, 5] 0 true 16 1 =
      .error .oob ∧
    List.length [0, 0, 0, 0, 0, 0, 0, 0, 5, 5, 5, 5, 5, 5, 5, 5] = 16 * 1 := by decide

/-- C3: counterexample.  For the fully transparent 1×2 SPR1 frame (every
pixel equals the transparent color 0), the forward scan of line 183 finds no
non-transparent pixel, so the transparent-rows shortcut never fires: the
encoder emits an empty start-of-row command for each row and zero
transparent-rows commands, not exactly one. -/
theorem spr1_fully_transparent_no_rows_cmd :
    spr1FrameCmds [0, 0] 0 true 1 2 =
      .ok [.startSprite, .start 2, .start 2, .endSprite] ∧
    [Spr1Cmd.startSprite, .start 2, .start 2, .endSprite].countP
      Spr1Cmd.isTransparentRows ≠ 1 := by decide

theorem findIdx?_replicate_self (t n i : Nat) :
    List.findIdx? (fun p => p != t) (List.replicate n t) i = none := by
  induction n generalizing i with
  | zero => simp
  | succ n ih => simp [List.replicate_succ, List.findIdx?_cons, ih]

theorem getD_replicate_lt {a d i n : Nat} (h : i < n) :
    (List.replicate n a).getD i d = a := by
  simp [List.getD_eq_getElem?_getD, List.getElem?_replicate, h]

theorem transparentScanAux_replicate (t rowIndex width N : Nat)
    (hrow : rowIndex + width ≤ N) :
    ∀ fuel tw, tw ≤ width → width ≤ tw + fuel →
      transparentScanAux (List.replicate N t) t rowIndex width 0 fuel tw = width := by
  intro fuel
  induction fuel with
  | zero =>
    intro tw h1 h2
    unfold transparentScanAux
    omega
  | succ fuel ih =>
    intro tw h1 h2
    unfold transparentScanAux
    by_cases hlt : 0 + tw < width
    · rw [if_pos hlt, getD_replicate_lt (by omega), if_pos rfl]
      exact ih (tw + 1) (by omega) (by omega)
    · rw [if_neg hlt]
      omega

theorem spr1RowStep_replicate (t N rowIndex width : Nat) (palPos : Bool)
    (h0 : 0 < width) (hrow : rowIndex + width ≤ N) :
    spr1RowStep (List.replicate N t) t palPos rowIndex width 0 = .ok none := by
  unfold spr1RowStep
  rw [getD_replicate_lt (by omega), if_pos rfl,
    transparentScanAux_replicate t rowIndex width N hrow width 1 (by omega) (by omega)]
  simp

theorem spr1RowEncode_replicate (t N rowIndex width : Nat) (palPos : Bool)
    (hrow : rowIndex + width ≤ N) :
    spr1RowEncode (List.replicate N t) t palPos rowIndex width = .ok [] := by
  unfold spr1RowEncode spr1XLoop
  by_cases h0 : 0 < width
  · rw [if_pos h0, spr1RowStep_replicate t N rowIndex width palPos h0 hrow]
  · rw [if_neg h0]

theorem spr1YLoop_replicate (t : Nat) (palPos : Bool) (width height : Nat) :
    ∀ fuel y acc, y ≤ height → height < y + fuel →
      spr1YLoop (List.replicate (width * height) t) t palPos width height fuel y acc =
        .ok (acc ++ List.replicate (height - y) (.start 2)) := by
  intro fuel
  induction fuel with
  | zero => intro y acc h1 h2; omega
  | succ fuel ih =>
    intro y acc h1 h2
    unfold spr1YLoop
    by_cases hy : y < height
    · have hdrop : (List.replicate (width * height) t).drop (y * width) =
          List.replicate (width * height - y * width) t := List.drop_replicate ..
      have hrow : y * width + width ≤ width * height := by
        have : (y + 1) * width ≤ height * width :=
          Nat.mul_le_mul_right width (by omega)
        calc y * width + width = (y + 1) * width := by ring
          _ ≤ height * width := this
          _ = width * height := Nat.mul_comm ..
      have henc := spr1RowEncode_replicate t (width * height) (y * width) width palPos hrow
      have hrepl : List.replicate (height - y) (Spr1Cmd.start 2) =
          Spr1Cmd.start 2 :: List.replicate (height - (y + 1)) (Spr1Cmd.start 2) := by
        rw [← List.replicate_succ]
        congr 1
        omega
      rw [if_pos hy]
      simp only [hdrop, findIdx?_replicate_self, henc, spr1CmdsBytes, List.map_nil,
        List.flatten_nil, List.length_nil]
      norm_num
      rw [ih (y + 1) (acc ++ [Spr1Cmd.start 2]) (by omega) (by omega)]
      simp [hrepl]
    · rw [if_neg hy]
      have : height - y = 0 := by omega
      simp [this]

theorem spr2TransparentScanAux_replicate (t rowIndex width N : Nat)
    (hrow : rowIndex + width ≤ N) :
    ∀ fuel tw, tw ≤ width → width ≤ tw + fuel →
      spr2TransparentScanAux (List.replicate N t) t rowIndex width 0 fuel tw = width := by
  intro fuel
  induction fuel with
  | zero =>
    intro tw h1 h2
    unfold spr2TransparentScanAux
    omega
  | succ fuel ih =>
    intro tw h1 h2
    unfold spr2TransparentScanAux
    by_cases hlt : 0 + tw < width
    · rw [if_pos hlt, getD_replicate_lt (by omega), if_pos rfl]
      exact ih (tw + 1) (by omega) (by omega)
    · rw [if_neg hlt]
      omega

theorem spr2RowStep_replicate (t N rowIndex width : Nat) (pz pa : List Nat)
    (h0 : 0 < width) (hrow : rowIndex + width ≤ N) :
    spr2RowStep (List.replicate N t) pz pa t rowIndex width 0 = .ok none := by
  unfold spr2RowStep
  have hcls : ∀ a, spr2Class t t a = .transparent := by
    intro a
    simp [spr2Class]
  simp only [getD_replicate_lt (a := t) (d := 0) (show rowIndex + 0 < N by omega), hcls,
    spr2TransparentScanAux_replicate t rowIndex width N hrow width 1 (by omega) (by omega)]
  simp

theorem spr2RowEncode_replicate (t N rowIndex width : Nat) (pz pa : List Nat)
    (hrow : rowIndex + width ≤ N) :
    spr2RowEncode (List.replicate N t) pz pa t rowIndex width = .ok [] := by
  unfold spr2RowEncode spr2XLoop
  by_cases h0 : 0 < width
  · rw [if_pos h0, spr2RowStep_replicate t N rowIndex width pz pa h0 hrow]
  · rw [if_neg h0]

theorem spr2YLoop_replicate (t : Nat) (pz pa : List Nat) (width height : Nat) :
    ∀ fuel y acc, y ≤ height → height < y + fuel →
      spr2YLoop (List.replicate (width * height) t) pz pa t width height fuel y acc =
        .ok (acc ++ List.replicate (height - y) (.start 2)) := by
  intro fuel
  induction fuel with
  | zero => intro y acc h1 h2; omega
  | succ fuel ih =>
    intro y acc h1 h2
    unfold spr2YLoop
    by_cases hy : y < height
    · have hdrop : (List.replicate (width * height) t).drop (y * width) =
          List.replicate (width * height - y * width) t := List.drop_replicate ..
      have hrow : y * width + width ≤ width * height := by
        have : (y + 1) * width ≤ height * width :=
          Nat.mul_le_mul_right width (by omega)
        calc y * width + width = (y + 1) * width := by ring
          _ ≤ height * width := this
          _ = width * height := Nat.mul_comm ..
      have henc := spr2RowEncode_replicate t (width * height) (y * width) width pz pa hrow
      have hrepl : List.replicate (height - y) (Spr2Cmd.start 2) =
          Spr2Cmd.start 2 :: List.replicate (height - (y + 1)) (Spr2Cmd.start 2) := by
        rw [← List.replicate_succ]
        congr 1
        omega
      rw [if_pos hy]
      simp only [hdrop, findIdx?_replicate_self, henc, spr2CmdsBytes, List.map_nil,
        List.flatten_nil, List.length_nil]
      norm_num
      rw [ih (y + 1) (acc ++ [Spr2Cmd.start 2]) (by omega) (by omega)]
      simp [hrepl]
    · rw [if_neg hy]
      have : height - y = 0 := by omega
      simp [this]

/-- C3 (amended): encoding a frame all of whose pixels are the transparent
color emits zero transparent-rows commands and zero per-row opaque or
transparent commands, in either format; every row contributes one empty
start-of-row command (length 2), because the whole-row shortcut of
lines 183/446 only fires when a non-transparent pixel exists later in the
buffer. -/
theorem fully_transparent_frame_encoding (width height t : Nat) (palPos : Bool)
    (pz pa : List Nat) :
    spr1FrameCmds (List.replicate (width * height) t) t palPos width height =
      .ok ([.startSprite] ++ List.replicate height (.start 2) ++ [.endSprite]) ∧
    spr2FrameCmds (List.replicate (width * height) t) pz pa t width height =
      .ok (List.replicate height (.start 2) ++ [.stop]) := by
  constructor
  · unfold spr1FrameCmds
    rw [spr1YLoop_replicate t palPos width height (height + 1) 0 [] (by omega) (by omega)]
    simp
  · unfold spr2FrameCmds
    rw [spr2YLoop_replicate t pz pa width height (height + 1) 0 [] (by omega) (by omega)]
    simp

/-- C7: counterexample to the claimed "exactly when".  For this width-16
SPR1 frame no emitted command length or count exceeds 255 (every run here
has length 8), yet encoding fails — with an out-of-range buffer access in
the opaque-repeat path (line 267 of `spr.rs`), which is not an encoding
overflow. -/
theorem spr1_failure_without_overflow :
    spr1FrameCmds [0, 0, 0, 0, 0, 0, 0, 0, 7, 7, 7, 7, 7, 7, 7, 7] 0 true 16 1 =
      .error .oob ∧
    EncErr.oob ≠ EncErr.overflow := by decide

theorem spr1FrameBytes_custom (palPos : Bool) (f : Spr1Frame) :
    spr1FrameBytes true palPos f =
      spr1FrameBytes false palPos
        { f with colorImage := f.depthImage, transparentColorIndex := 255 } := rfl

theorem spr1FramesBytes_custom (palPos : Bool) (fs : List Spr1Frame) :
    spr1FramesBytes true palPos fs =
      spr1FramesBytes false palPos
        (fs.map fun f => { f with colorImage := f.depthImage, transparentColorIndex := 255 }) := by
  induction fs with
  | nil => rfl
  | cons f fs ih => simp [spr1FramesBytes, spr1FrameBytes_custom palPos f, ih]

/-- C9: when the sprite is flagged as a custom wall style, SPR1 encoding is
identical to encoding the same sprite without the flag after substituting
each frame's depth channel for its color channel and forcing every frame's
transparent color index to 255 (lines 121–125 and 145–149 of `spr.rs`). -/
theorem spr1_custom_wall_style (s : Spr1Sprite) (h : s.isCustomWallStyle = true) :
    spr1Data s =
      spr1Data { s with
                 isCustomWallStyle := false,
                 frames := s.frames.map fun f =>
                   { f with
                     colorImage := f.depthImage,
                     transparentColorIndex := 255 } } := by
  unfold spr1Data
  simp only [h, spr1FramesBytes_custom]

/-- C9 witness: the theorem applied to a concrete one-frame custom-wall-style
sprite, whose depth channel holds the single pixel 5. -/
theorem spr1_custom_wall_style_witness :
    spr1Data { palId := 1, declaredFrameCount := 1, isCustomWallStyle := true,
               frames := [{ colorImage := { width := 1, height := 1, pixels := [3] },
                            depthImage := { width := 1, height := 1, pixels := [5] },
                            transparentColorIndex := 0 }] } =
    spr1Data { palId := 1, declaredFrameCount := 1, isCustomWallStyle := false,
               frames := [{ colorImage := { width := 1, height := 1, pixels := [5] },
                            depthImage := { width := 1, height := 1, pixels := [5] },
                            transparentColorIndex := 255 }] } :=
  spr1_custom_wall_style _ rfl

theorem addrTable_length (base : Nat) (lens : List Nat) :
    (addrTable base lens).length = lens.length := by
  induction lens generalizing base with
  | nil => rfl
  | cons l ls ih => simp [addrTable, ih]

theorem spr2FramesBytes_length (fs : List Spr2Frame) (datas : List (List Nat))
    (h : spr2FramesBytes fs = .ok datas) : datas.length = fs.length := by
  induction fs generalizing datas with
  | nil =>
    simp only [spr2FramesBytes] at h
    cases h
    rfl
  | cons f fs ih =>
    unfold spr2FramesBytes at h
    cases hf : spr2FrameBytes f with
    | error e => rw [hf] at h; cases h
    | ok d =>
      rw [hf] at h
      cases hfs : spr2FramesBytes fs with
      | error e => rw [hfs] at h; cases h
      | ok ds =>
        rw [hfs] at h
        cases h
        simp [ih ds hfs]

theorem take_four_of_append (b rest : List Nat) (hb : b.length = 4) :
    (b ++ rest).take 4 = b := by
  rw [← hb]
  exact List.take_left b rest

theorem drop_four_of_append (a rest : List Nat) (ha : a.length = 4) :
    (a ++ rest).drop 4 = rest := by
  rw [← ha]
  exact List.drop_left a rest

/-- C8: SPR2 container assembly ignores the declared frame count: the payload
is unchanged by any declared value, its frame-count field (payload bytes
4–7) is the little-endian encoding of the live frame descriptor list length,
and the offset table has one entry per live frame descriptor.  SPR1 container
assembly instead writes the declared frame count into the frame-count field
(and, per `spr1Data`, sizes the offset-table base from it). -/
theorem spr2_frame_count_from_descriptors :
    (∀ (s : Spr2Sprite) (d : Int),
      spr2Data { s with declaredFrameCount := d } = spr2Data s) ∧
    (∀ (s : Spr2Sprite) (bytes : List Nat), spr2Data s = .ok bytes →
      (bytes.drop 4).take 4 = toLE32 s.frames.length) ∧
    (∀ (s : Spr2Sprite) (datas : List (List Nat)), spr2FramesBytes s.frames = .ok datas →
      (addrTable (4 * s.frames.length + 12) (datas.map List.length)).length =
        s.frames.length) ∧
    (∀ (s : Spr1Sprite) (bytes : List Nat), spr1Data s = .ok bytes →
      (bytes.drop 4).take 4 = toLE32 s.declaredFrameCount.toNat) := by
  refine ⟨fun s d => rfl, ?_, ?_, ?_⟩
  · intro s bytes h
    unfold spr2Data at h
    cases hfb : spr2FramesBytes s.frames with
    | error e => rw [hfb] at h; cases h
    | ok datas =>
      rw [hfb] at h
      dsimp only at h
      split_ifs at h
      cases h
      rw [List.append_assoc, List.append_assoc, List.append_assoc,
        drop_four_of_append _ _ (by simp [toLE32]),
        take_four_of_append _ _ (by simp [toLE32])]
  · intro s datas h
    rw [addrTable_length, List.length_map, spr2FramesBytes_length s.frames datas h]
  · intro s bytes h
    unfold spr1Data at h
    split_ifs at h
    cases hfb : spr1FramesBytes s.isCustomWallStyle (decide (0 < s.palId)) s.frames with
    | error e => rw [hfb] at h; cases h
    | ok datas =>
      rw [hfb] at h
      dsimp only at h
      split_ifs at h
      cases h
      rw [List.append_assoc, List.append_assoc, List.append_assoc,
        drop_four_of_append _ _ (by simp [toLE32]),
        take_four_of_append _ _ (by simp [toLE32])]

/-- C8 witness: the theorem applied to concrete sprites: an SPR2 sprite with
no frames but declared count 7 (changing the declared count to 9 leaves the
payload unchanged, the count field encodes 0, the offset table is empty) and
an SPR1 sprite with no frames but declared count 2 (the count field encodes
the declared 2). -/
theorem spr2_frame_count_from_descriptors_witness :
    spr2Data { palId := 1, declaredFrameCount := 9, frames := [] } =
      spr2Data { palId := 1, declaredFrameCount := 7, frames := [] } ∧
    (([232, 3, 0, 0, 0, 0, 0, 0, 1, 0, 0, 0] : List Nat).drop 4).take 4 = toLE32 0 ∧
    (addrTable (4 * 0 + 12) (([] : List (List Nat)).map List.length)).length = 0 ∧
    (([248, 1, 0, 0, 2, 0, 0, 0, 1, 0, 0, 0] : List Nat).drop 4).take 4 = toLE32 2 :=
  ⟨spr2_frame_count_from_descriptors.1 { palId := 1, declaredFrameCount := 7, frames := [] } 9,
   spr2_frame_count_from_descriptors.2.1 { palId := 1, declaredFrameCount := 7, frames := [] }
     _ (by decide),
   spr2_frame_count_from_descriptors.2.2.1
     { palId := 1, declaredFrameCount := 7, frames := [] } [] (by decide),
   spr2_frame_count_from_descriptors.2.2.2
     { palId := 1, declaredFrameCount := 2, isCustomWallStyle := false, frames := [] }
     _ (by decide)⟩

theorem addrTable_getD (lens : List Nat) :
    ∀ base i, i < lens.length →
      (addrTable base lens).getD i 0 = base + (lens.take i).sum := by
  induction lens with
  | nil => intro base i h; simp at h
  | cons l ls ih =>
    intro base i h
    cases i with
    | zero => simp [addrTable]
    | succ i =>
      have := ih (base + l) i (by simpa using h)
      simp only [addrTable, List.getD_cons_succ, this, List.take_succ_cons, List.sum_cons]
      omega

theorem addrTable_mem_le (lens : List Nat) :
    ∀ base a, a ∈ addrTable base lens → base ≤ a := by
  induction lens with
  | nil => intro base a h; simp [addrTable] at h
  | cons l ls ih =>
    intro base a h
    simp only [addrTable, List.mem_cons] at h
    rcases h with h | h
    · omega
    · have := ih (base + l) a h
      omega

theorem addrTable_pairwise (lens : List Nat) :
    ∀ base, (∀ l ∈ lens, 0 < l) → (addrTable base lens).Pairwise (· < ·) := by
  induction lens with
  | nil => intro base _; simp [addrTable]
  | cons l ls ih =>
    intro base h
    simp only [addrTable, List.pairwise_cons]
    constructor
    · intro a ha
      have h1 := addrTable_mem_le ls (base + l) a ha
      have h2 : 0 < l := h l (by simp)
      omega
    · exact ih (base + l) fun x hx => h x (by simp [hx])

theorem spr1FrameBytes_pos (custom palPos : Bool) (f : Spr1Frame) (bytes : List Nat)
    (h : spr1FrameBytes custom palPos f = .ok bytes) : 0 < bytes.length := by
  unfold spr1FrameBytes at h
  dsimp only at h
  split_ifs at h
  all_goals split at h
  all_goals cases h
  all_goals simp

theorem spr2FrameBytes_pos (f : Spr2Frame) (bytes : List Nat)
    (h : spr2FrameBytes f = .ok bytes) : 0 < bytes.length := by
  unfold spr2FrameBytes at h
  dsimp only at h
  split_ifs at h
  all_goals split at h
  all_goals cases h
  all_goals simp [toLE16]

theorem spr1FramesBytes_pos (custom palPos : Bool) (fs : List Spr1Frame) :
    ∀ datas, spr1FramesBytes custom palPos fs = .ok datas → ∀ d ∈ datas, 0 < d.length := by
  induction fs with
  | nil =>
    intro datas h
    simp only [spr1FramesBytes] at h
    cases h
    intro d hd
    simp at hd
  | cons f fs ih =>
    intro datas h
    unfold spr1FramesBytes at h
    cases hf : spr1FrameBytes custom palPos f with
    | error e => rw [hf] at h; cases h
    | ok d0 =>
      rw [hf] at h
      cases hfs : spr1FramesBytes custom palPos fs with
      | error e => rw [hfs] at h; cases h
      | ok ds =>
        rw [hfs] at h
        cases h
        intro d hd
        rcases List.mem_cons.mp hd with rfl | hd2
        · exact spr1FrameBytes_pos custom palPos f d hf
        · exact ih ds hfs d hd2

theorem spr2FramesBytes_pos (fs : List Spr2Frame) :
    ∀ datas, spr2FramesBytes fs = .ok datas → ∀ d ∈ datas, 0 < d.length := by
  induction fs with
  | nil =>
    intro datas h
    simp only [spr2FramesBytes] at h
    cases h
    intro d hd
    simp at hd
  | cons f fs ih =>
    intro datas h
    unfold spr2FramesBytes at h
    cases hf : spr2FrameBytes f with
    | error e => rw [hf] at h; cases h
    | ok d0 =>
      rw [hf] at h
      cases hfs : spr2FramesBytes fs with
      | error e => rw [hfs] at h; cases h
      | ok ds =>
        rw [hfs] at h
        cases h
        intro d hd
        rcases List.mem_cons.mp hd with rfl | hd2
        · exact spr2FrameBytes_pos f d hf
        · exact ih ds hfs d hd2

/-- C6: for either format's assembled container, the offset table computed by
`addrTable` over the encoded frames is the running prefix sum of the
preceding frames' encoded byte lengths starting at the payload header size
(12 bytes) plus 4 bytes per frame (counted from the declared frame count for
SPR1 and the live descriptor list for SPR2, exactly as the two builders do),
and its entries are strictly increasing (every encoded frame is nonempty). -/
theorem frame_offsets_prefix_sums :
    (∀ (s : Spr1Sprite) (datas : List (List Nat)),
      spr1FramesBytes s.isCustomWallStyle (decide (0 < s.palId)) s.frames = .ok datas →
      (∀ i, i < datas.length →
        (addrTable (12 + 4 * s.declaredFrameCount.toNat) (datas.map List.length)).getD i 0 =
          12 + 4 * s.declaredFrameCount.toNat + ((datas.map List.length).take i).sum) ∧
      (addrTable (12 + 4 * s.declaredFrameCount.toNat)
        (datas.map List.length)).Pairwise (· < ·)) ∧
    (∀ (s : Spr2Sprite) (datas : List (List Nat)),
      spr2FramesBytes s.frames = .ok datas →
      (∀ i, i < datas.length →
        (addrTable (4 * s.frames.length + 12) (datas.map List.length)).getD i 0 =
          4 * s.frames.length + 12 + ((datas.map List.length).take i).sum) ∧
      (addrTable (4 * s.frames.length + 12) (datas.map List.length)).Pairwise (· < ·)) := by
  constructor
  · intro s datas h
    constructor
    · intro i hi
      exact addrTable_getD (datas.map List.length) _ i (by simpa using hi)
    · refine addrTable_pairwise (datas.map List.length) _ fun l hl => ?_
      rcases List.mem_map.mp hl with ⟨d, hd, rfl⟩
      exact spr1FramesBytes_pos _ _ s.frames datas h d hd
  · intro s datas h
    constructor
    · intro i hi
      exact addrTable_getD (datas.map List.length) _ i (by simpa using hi)
    · refine addrTable_pairwise (datas.map List.length) _ fun l hl => ?_
      rcases List.mem_map.mp hl with ⟨d, hd, rfl⟩
      exact spr2FramesBytes_pos s.frames datas h d hd

/-- C6 witness: the theorem applied to concrete one-frame sprites of both
formats; the SPR1 frame encodes to 18 bytes (offset table `[16]`) and the
SPR2 frame to 24 bytes (offset table `[16]`). -/
theorem frame_offsets_prefix_sums_witness :
    ((∀ i, i < 1 → (addrTable 16 [18]).getD i 0 = 16 + (([18] : List Nat).take i).sum) ∧
      (addrTable 16 [18]).Pairwise (· < ·)) ∧
    ((∀ i, i < 1 → (addrTable 16 [24]).getD i 0 = 16 + (([24] : List Nat).take i).sum) ∧
      (addrTable 16 [24]).Pairwise (· < ·)) :=
  ⟨frame_offsets_prefix_sums.1
      { palId := 1, declaredFrameCount := 1, isCustomWallStyle := false,
        frames := [{ colorImage := { width := 1, height := 1, pixels := [5] },
                     depthImage := { width := 1, height := 1, pixels := [5] },
                     transparentColorIndex := 0 }] }
      [[0, 0, 0, 0, 1, 0, 1, 0, 0, 0, 4, 6, 3, 1, 5, 0, 5, 0]] (by decide),
   frame_offsets_prefix_sums.2
      { palId := 1, declaredFrameCount := 1,
        frames := [{ boundsLeft := 0, boundsTop := 0, boundsRight := 1, boundsBottom := 1,
                     palId := 1, transparentColorIndex := 0,
                     pixelsP := [1], pixelsZ := [2], pixelsA := [255] }] }
      [[1, 0, 1, 0, 7, 0, 0, 0, 1, 0, 0, 0, 0, 0, 0, 0, 6, 0, 1, 32, 2, 1, 0, 160]]
      (by decide)⟩

/-- The shape of run payloads as `spr2RowStep` builds them: a translucent
command's bytes are depth/color/shifted-alpha triples read from some buffer
position, followed by the zero pad byte exactly when the pixel count is odd;
an opaque (`solid`) command's bytes are depth/color pairs with no pad. -/
def spr2RunShape (pz pp pa : List Nat) : Spr2Cmd → Prop
  | .translucent n bytes =>
    ∃ s, bytes = spr2Triples pz pp pa s n ++ (if n % 2 = 1 then [0] else [])
  | .solid n bytes => ∃ s, bytes = spr2Pairs pz pp s n
  | _ => True

theorem spr2RowStep_shape (pp pz pa : List Nat) (t rowIndex width x x2 : Nat)
    (em : List Spr2Cmd)
    (h : spr2RowStep pp pz pa t rowIndex width x = .ok (some (x2, em))) :
    ∀ c ∈ em, spr2RunShape pz pp pa c := by
  unfold spr2RowStep at h
  dsimp only at h
  split at h
  · split_ifs at h
    all_goals cases h
    intro c hc
    simp only [List.mem_singleton] at hc
    subst hc
    trivial
  · split_ifs at h
    all_goals cases h
    all_goals intro c hc
    all_goals simp only [List.mem_singleton] at hc
    all_goals subst hc
    all_goals exact ⟨rowIndex + x, by simp [*]⟩
  · split_ifs at h
    all_goals cases h
    intro c hc
    simp only [List.mem_singleton] at hc
    subst hc
    exact ⟨rowIndex + x, rfl⟩

theorem spr2XLoop_shape (pp pz pa : List Nat) (t rowIndex width : Nat) :
    ∀ fuel x acc out, (∀ c ∈ acc, spr2RunShape pz pp pa c) →
      spr2XLoop pp pz pa t rowIndex width fuel x acc = .ok out →
      ∀ c ∈ out, spr2RunShape pz pp pa c := by
  intro fuel
  induction fuel with
  | zero => intro x acc out hacc h; cases h
  | succ fuel ih =>
    intro x acc out hacc h
    unfold spr2XLoop at h
    by_cases hx : x < width
    · rw [if_pos hx] at h
      cases hrs : spr2RowStep pp pz pa t rowIndex width x with
      | error e => rw [hrs] at h; cases h
      | ok oo =>
        rw [hrs] at h
        cases oo with
        | none =>
          dsimp only at h
          cases h
          exact hacc
        | some p =>
          obtain ⟨x3, em⟩ := p
          dsimp only at h
          refine ih x3 (acc ++ em) out ?_ h
          intro c hc
          rcases List.mem_append.mp hc with h1 | h2
          · exact hacc c h1
          · exact spr2RowStep_shape pp pz pa t rowIndex width x x3 em hrs c h2
    · rw [if_neg hx] at h
      cases h
      exact hacc

theorem spr2YLoop_shape (pp pz pa : List Nat) (t width height : Nat) :
    ∀ fuel y acc out, (∀ c ∈ acc, spr2RunShape pz pp pa c) →
      spr2YLoop pp pz pa t width height fuel y acc = .ok out →
      ∀ c ∈ out, spr2RunShape pz pp pa c := by
  intro fuel
  induction fuel with
  | zero => intro y acc out hacc h; cases h
  | succ fuel ih =>
    intro y acc out hacc h
    unfold spr2YLoop at h
    by_cases hy : y < height
    · rw [if_pos hy] at h
      dsimp only at h
      split_ifs at h
      · refine ih _ _ out ?_ h
        intro c hc
        rcases List.mem_append.mp hc with h1 | h2
        · exact hacc c h1
        · simp only [List.mem_singleton] at h2
          subst h2
          trivial
      · cases hre : spr2RowEncode pp pz pa t (y * width) width with
        | error e => rw [hre] at h; cases h
        | ok rowCmds =>
          rw [hre] at h
          dsimp only at h
          split_ifs at h
          refine ih _ _ out ?_ h
          intro c hc
          rcases List.mem_append.mp hc with h1 | h2
          · rcases List.mem_append.mp h1 with h3 | h4
            · exact hacc c h3
            · simp only [List.mem_singleton] at h4
              subst h4
              trivial
          · exact spr2XLoop_shape pp pz pa t (y * width) width (width + 1) 0 [] rowCmds
              (by intro c hc; simp at hc) hre c h2
    · rw [if_neg hy] at h
      cases h
      exact hacc

theorem spr2FrameCmds_shape (pp pz pa : List Nat) (t width height : Nat)
    (cmds : List Spr2Cmd) (h : spr2FrameCmds pp pz pa t width height = .ok cmds) :
    ∀ c ∈ cmds, spr2RunShape pz pp pa c := by
  unfold spr2FrameCmds at h
  cases hy : spr2YLoop pp pz pa t width height (height + 1) 0 [] with
  | error e => rw [hy] at h; cases h
  | ok body =>
    rw [hy] at h
    cases h
    intro c hc
    rcases List.mem_append.mp hc with h1 | h2
    · exact spr2YLoop_shape pp pz pa t width height (height + 1) 0 [] body
        (by intro c hc; simp at hc) hy c h1
    · simp only [List.mem_singleton] at h2
      subst h2
      trivial

theorem spr2Triples_length (pz pp pa : List Nat) :
    ∀ n s, (spr2Triples pz pp pa s n).length = 3 * n := by
  intro n
  induction n with
  | zero => intro s; rfl
  | succ n ih =>
    intro s
    simp only [spr2Triples, List.length_cons, ih]
    omega

theorem spr2Pairs_length (pz pp : List Nat) :
    ∀ n s, (spr2Pairs pz pp s n).length = 2 * n := by
  intro n
  induction n with
  | zero => intro s; rfl
  | succ n ih =>
    intro s
    simp only [spr2Pairs, List.length_cons, ih]
    omega

/-- C5: in SPR2 frame encoding, every translucent command's byte payload is
its 3-bytes-per-pixel data followed by exactly one zero pad byte when the
pixel count is odd and by none when it is even, while every opaque command's
byte payload is exactly 2 bytes per pixel with no pad byte regardless of
parity. -/
theorem spr2_padding_parity (pp pz pa : List Nat) (t width height : Nat)
    (cmds : List Spr2Cmd) (h : spr2FrameCmds pp pz pa t width height = .ok cmds) :
    (∀ n bytes, Spr2Cmd.translucent n bytes ∈ cmds →
      ∃ p, bytes = p ++ (if n % 2 = 1 then [0] else []) ∧ p.length = 3 * n) ∧
    (∀ n bytes, Spr2Cmd.solid n bytes ∈ cmds → bytes.length = 2 * n) := by
  have hs := spr2FrameCmds_shape pp pz pa t width height cmds h
  constructor
  · intro n bytes hmem
    obtain ⟨s, hb⟩ := hs _ hmem
    exact ⟨spr2Triples pz pp pa s n, hb, spr2Triples_length pz pp pa n s⟩
  · intro n bytes hmem
    obtain ⟨s, hb⟩ := hs _ hmem
    rw [hb, spr2Pairs_length]

/-- C5 witness: the theorem applied to the concrete 2×1 frame with one
opaque pixel and one translucent pixel, each a run of odd length 1: the
translucent command carries its 3 payload bytes plus one zero pad byte and
the opaque command exactly its 2 payload bytes. -/
theorem spr2_padding_parity_witness :
    (∀ n bytes, Spr2Cmd.translucent n bytes ∈
        [Spr2Cmd.start 12, .solid 1 [9, 1], .translucent 1 [8, 2, 12, 0], .stop] →
      ∃ p, bytes = p ++ (if n % 2 = 1 then [0] else []) ∧ p.length = 3 * n) ∧
    (∀ n bytes, Spr2Cmd.solid n bytes ∈
        [Spr2Cmd.start 12, .solid 1 [9, 1], .translucent 1 [8, 2, 12, 0], .stop] →
      bytes.length = 2 * n) :=
  spr2_padding_parity [1, 2] [9, 8] [255, 100] 0 2 1
    [Spr2Cmd.start 12, .solid 1 [9, 1], .translucent 1 [8, 2, 12, 0], .stop] (by decide)

theorem spr2Triples_getD (pz pp pa : List Nat) :
    ∀ n s i, i < n →
      (spr2Triples pz pp pa s n).getD (3 * i + 2) 0 = (pa.getD (s + i) 0) >>> 3 := by
  intro n
  induction n with
  | zero => intro s i h; omega
  | succ n ih =>
    intro s i h
    cases i with
    | zero => simp [spr2Triples]
    | succ i =>
      rw [show 3 * (i + 1) + 2 = (3 * i + 2) + 1 + 1 + 1 by ring]
      simp only [spr2Triples, List.getD_cons_succ]
      rw [ih (s + 1) i (by omega), show s + 1 + i = s + (i + 1) by ring]

/-- C4: SPR2 per-pixel classification: with the alpha byte shifted right by 3
to a 5-bit value, a pixel is transparent exactly when its color value equals
the frame's transparent color index regardless of alpha; otherwise
translucent exactly when its shifted alpha is below 31; otherwise opaque
(`solid`).  For byte-valued alphas (below 256) the run-continuation tests of
the encoder (`shifted alpha ≠ 31` / `= 31`) coincide with the translucent and
opaque classifications.  Moreover every translucent command emitted for a
frame stores, as each pixel's third payload byte, the source alpha value
shifted right by 3. -/
theorem spr2_classification_and_alpha :
    (∀ t p a : Nat,
      (spr2Class t p a = .transparent ↔ p = t) ∧
      (spr2Class t p a = .translucent ↔ p ≠ t ∧ a >>> 3 < 31) ∧
      (a < 256 → (spr2Class t p a = .solid ↔ p ≠ t ∧ a >>> 3 = 31)) ∧
      (a < 256 → ((p ≠ t ∧ a >>> 3 ≠ 31) ↔ spr2Class t p a = .translucent))) ∧
    (∀ (pp pz pa : List Nat) (t width height : Nat) (cmds : List Spr2Cmd),
      spr2FrameCmds pp pz pa t width height = .ok cmds →
      ∀ n bytes, Spr2Cmd.translucent n bytes ∈ cmds →
        ∃ s, ∀ i, i < n → bytes.getD (3 * i + 2) 0 = (pa.getD (s + i) 0) >>> 3) := by
  constructor
  · intro t p a
    have hle : a < 256 → a >>> 3 ≤ 31 := by
      intro h
      rw [Nat.shiftRight_eq_div_pow]
      omega
    unfold spr2Class
    by_cases hp : p = t
    · rw [if_pos hp]
      exact ⟨⟨fun _ => hp, fun _ => rfl⟩,
        ⟨(fun hh => by cases hh), fun hh => absurd hp hh.1⟩,
        fun h256 => ⟨(fun hh => by cases hh), fun hh => absurd hp hh.1⟩,
        fun h256 => ⟨fun hh => absurd hp hh.1, (fun hh => by cases hh)⟩⟩
    · by_cases ha : a >>> 3 < 31
      · rw [if_neg hp, if_pos ha]
        exact ⟨⟨(fun hh => by cases hh), fun hh => absurd hh hp⟩,
          ⟨fun _ => ⟨hp, ha⟩, fun _ => rfl⟩,
          fun h256 => ⟨(fun hh => by cases hh), (fun hh => absurd hh.2 (by omega))⟩,
          fun h256 => ⟨fun _ => rfl, (fun _ => ⟨hp, by omega⟩)⟩⟩
      · rw [if_neg hp, if_neg ha]
        exact ⟨⟨(fun hh => by cases hh), fun hh => absurd hh hp⟩,
          ⟨(fun hh => by cases hh), fun hh => absurd hh.2 ha⟩,
          fun h256 => ⟨(fun _ => ⟨hp, by have := hle h256; omega⟩), fun _ => rfl⟩,
          fun h256 => ⟨fun hcon => absurd (by have := hle h256; omega : a >>> 3 = 31) hcon.2,
            (fun hh => by cases hh)⟩⟩
  · intro pp pz pa t width height cmds h n bytes hmem
    obtain ⟨s, hb⟩ := spr2FrameCmds_shape pp pz pa t width height cmds h _ hmem
    refine ⟨s, fun i hi => ?_⟩
    rw [hb, List.getD_append _ _ _ _ (by rw [spr2Triples_length]; omega),
      spr2Triples_getD pz pp pa n s i hi]

/-- C4 witness: the theorem applied to concrete pixels (color 1, transparent
index 0; alpha 100 shifts to 12, classified translucent; alpha 255 shifts to
31, classified opaque) and to the concrete 1×1 frame with alpha 100, whose
translucent command's third payload byte is 100 >>> 3 = 12. -/
theorem spr2_classification_and_alpha_witness :
    (spr2Class 0 1 100 = .translucent ↔ 1 ≠ 0 ∧ 100 >>> 3 < 31) ∧
    (spr2Class 0 1 255 = .solid ↔ 1 ≠ 0 ∧ 255 >>> 3 = 31) ∧
    (∃ s, ∀ i, i < 1 → ([9, 1, 12, 0] : List Nat).getD (3 * i + 2) 0 =
      (([100] : List Nat).getD (s + i) 0) >>> 3) :=
  ⟨(spr2_classification_and_alpha.1 0 1 100).2.1,
   (spr2_classification_and_alpha.1 0 1 255).2.2.1 (by decide),
   spr2_classification_and_alpha.2 [1] [9] [100] 0 1 1
     [Spr2Cmd.start 8, .translucent 1 [9, 1, 12, 0], .stop] (by decide) 1 [9, 1, 12, 0]
     (by decide)⟩

theorem repeatedScanAux_eq (pixels : List Nat) (v rowIndex width rangeX n : Nat)
    (hn : rangeX + n ≤ width)
    (hv : ∀ i, i < n → pixels.getD (rowIndex + rangeX + i) 0 = v)
    (hmax : rangeX + n = width ∨ pixels.getD (rowIndex + rangeX + n) 0 ≠ v) :
    ∀ fuel k, 1 ≤ k → k ≤ n → n ≤ k + fuel →
      repeatedScanAux pixels v rowIndex width rangeX fuel k = n := by
  intro fuel
  induction fuel with
  | zero =>
    intro k h1 h2 h3
    unfold repeatedScanAux
    omega
  | succ fuel ih =>
    intro k h1 h2 h3
    unfold repeatedScanAux
    by_cases hlt : rangeX + k < width
    · rw [if_pos hlt]
      by_cases hk : k < n
      · rw [hv k hk, if_pos rfl]
        exact ih (k + 1) (by omega) (by omega) (by omega)
      · have hkn : k = n := by omega
        subst hkn
        rcases hmax with hmax | hmax
        · omega
        · rw [if_neg hmax]
    · rw [if_neg hlt]
      omega

theorem get?_eq_some_getD (l : List Nat) (i : Nat) (h : i < l.length) :
    l.get? i = some (l.getD i 0) := by
  rw [List.get?_eq_getElem?, List.getD_eq_getElem?_getD, List.getElem?_eq_getElem h]
  rfl

/-- C2: the SPR1 repeat-threshold policy, stated for one iteration of the
inner scan loop at a maximal run of `n` equal non-transparent pixels `v`
starting at `range_x`.  When `n ≥ 8` (and within the 255 length field): with
an empty pending literal buffer the step emits a single opaque-repeat
command covering the whole run (its representative color byte read at
`row_index + range_x + x` when the palette id is positive); with a nonempty
pending buffer the step instead breaks out of the scan with the buffer
intact, which the outer loop then flushes as an opaque command (third
conjunct) before resuming at `range_x`, where the first conjunct applies and
the repeat run is picked up.  When `2 ≤ n ≤ 7` the step appends the whole
run to the pending literal buffer (its pixel values, or zero placeholders
when the sprite has no positive palette id) and emits no command at all. -/
theorem spr1_repeat_threshold (pixels : List Nat) (t : Nat) (palPos : Bool)
    (rowIndex width x rangeX n v : Nat)
    (hvt : v ≠ t) (hn : rangeX + n ≤ width)
    (hv : ∀ i, i < n → pixels.getD (rowIndex + rangeX + i) 0 = v)
    (hmax : rangeX + n = width ∨ pixels.getD (rowIndex + rangeX + n) 0 ≠ v) :
    (8 ≤ n → n ≤ 255 → rowIndex + rangeX + x < pixels.length →
      spr1InnerBody pixels t palPos rowIndex width x rangeX none =
        .next (rangeX + n) none
          [.solidRepeat n (if palPos then pixels.getD (rowIndex + rangeX + x) 0 else 0)] ∧
      (∀ l, spr1InnerBody pixels t palPos rowIndex width x rangeX (some l) =
        .brk rangeX (some l)) ∧
      (∀ l, l.length ≤ 255 → spr1FlushCmds (some l) =
        .ok [.solid l.length (l ++ (if l.length % 2 ≠ 0 then [0] else []))])) ∧
    (2 ≤ n → n ≤ 7 → ∀ pending,
      spr1InnerBody pixels t palPos rowIndex width x rangeX pending =
        .next (rangeX + n)
          (some (pending.getD [] ++ (if palPos then (pixels.drop (rowIndex + rangeX)).take n
            else List.replicate n 0))) []) := by
  have hb : 2 ≤ n → ∀ pending, spr1InnerBody pixels t palPos rowIndex width x rangeX pending =
      if 8 ≤ n then
        match pending with
        | some l => .brk rangeX (some l)
        | none =>
          if 255 < n then .err .overflow
          else if palPos then
            match pixels.get? (rowIndex + rangeX + x) with
            | some c => .next (rangeX + n) none [.solidRepeat n c]
            | none => .err .oob
          else .next (rangeX + n) none [.solidRepeat n 0]
      else .next (rangeX + n)
        (some (pending.getD [] ++ (if palPos then (pixels.drop (rowIndex + rangeX)).take n
          else List.replicate n 0))) [] := by
    intro h2 pending
    have hfirst : pixels.getD (rowIndex + rangeX) 0 = v := by
      have := hv 0 (by omega)
      simpa using this
    have hnext : pixels.getD (rowIndex + rangeX + 1) 0 = v := hv 1 (by omega)
    have hscan : repeatedScanAux pixels v rowIndex width rangeX width 1 = n :=
      repeatedScanAux_eq pixels v rowIndex width rangeX n hn hv hmax width 1
        (by omega) (by omega) (by omega)
    unfold spr1InnerBody
    dsimp only
    rw [hfirst, if_neg hvt, if_neg (by omega : ¬rangeX + 1 = width), hnext, if_neg hvt,
      if_pos rfl, hscan]
  constructor
  · intro h8 h255 hread
    refine ⟨?_, fun l => ?_, fun l hl => ?_⟩
    · rw [hb (by omega) none, if_pos h8]
      dsimp only
      rw [if_neg (by omega : ¬255 < n)]
      cases palPos with
      | false => rfl
      | true =>
        rw [get?_eq_some_getD pixels (rowIndex + rangeX + x) hread]
        rfl
    · rw [hb (by omega) (some l), if_pos h8]
    · simp only [spr1FlushCmds]
      rw [if_neg (by omega : ¬255 < l.length)]
  · intro h2 h7 pending
    rw [hb h2 pending, if_neg (by omega : ¬8 ≤ n)]

/-- C2 witness: the theorem applied to concrete runs.  A maximal run of
eight 9s at the row start is emitted as one opaque-repeat command when the
pending buffer is empty and causes a break (then an opaque flush) when the
buffer holds `[7]`; a maximal run of three 5s is appended to the empty
pending buffer with no command emitted. -/
theorem spr1_repeat_threshold_witness :
    spr1InnerBody [9, 9, 9, 9, 9, 9, 9, 9] 0 true 0 8 0 0 none =
      .next 8 none [.solidRepeat 8 9] ∧
    spr1InnerBody [9, 9, 9, 9, 9, 9, 9, 9] 0 true 0 8 0 0 (some [7]) =
      .brk 0 (some [7]) ∧
    spr1FlushCmds (some [7]) = .ok [.solid 1 [7, 0]] ∧
    spr1InnerBody [5, 5, 5, 0, 0, 0, 0, 0] 0 true 0 8 0 0 none =
      .next 3 (some [5, 5, 5]) [] := by
  have hA := (spr1_repeat_threshold [9, 9, 9, 9, 9, 9, 9, 9] 0 true 0 8 0 0 8 9
    (by decide) (by decide) (by decide) (by decide)).1 (by decide) (by decide) (by decide)
  have hB := (spr1_repeat_threshold [5, 5, 5, 0, 0, 0, 0, 0] 0 true 0 8 0 0 3 5
    (by decide) (by decide) (by decide) (by decide)).2 (by decide) (by decide) none
  exact ⟨hA.1, hA.2.1 [7], hA.2.2 [7] (by decide), hB⟩

/-- Every length/count field of an SPR1 command fits its one-byte field. -/
def Spr1Cmd.lenOk : Spr1Cmd → Prop
  | .startSprite => True
  | .start n => n ≤ 255
  | .solid n _ => n ≤ 255
  | .solidRepeat n _ => n ≤ 255
  | .transparentRun n => n ≤ 255
  | .transparentRows n => n ≤ 255
  | .endSprite => True

/-- Every length/count field of an SPR2 command fits its 13-bit field. -/
def Spr2Cmd.lenOk : Spr2Cmd → Prop
  | .start n => n ≤ 8191
  | .solid n _ => n ≤ 8191
  | .translucent n _ => n ≤ 8191
  | .transparentRun n => n ≤ 8191
  | .transparentRows n => n ≤ 8191
  | .stop => True

theorem spr1InnerBody_lenOk (pixels : List Nat) (t : Nat) (palPos : Bool)
    (rowIndex width x rangeX : Nat) (pending : Option (List Nat))
    (rx : Nat) (p : Option (List Nat)) (em : List Spr1Cmd)
    (h : spr1InnerBody pixels t palPos rowIndex width x rangeX pending = .next rx p em) :
    ∀ c ∈ em, c.lenOk := by
  unfold spr1InnerBody at h
  dsimp only at h
  split_ifs at h
  all_goals try split at h
  all_goals try split at h
  all_goals try cases h
  all_goals intro c hc
  all_goals simp only [List.mem_singleton, List.not_mem_nil] at hc
  all_goals subst hc
  all_goals simp only [Spr1Cmd.lenOk]
  all_goals omega

theorem spr1FlushCmds_lenOk (pending : Option (List Nat)) (fl : List Spr1Cmd)
    (h : spr1FlushCmds pending = .ok fl) : ∀ c ∈ fl, c.lenOk := by
  cases pending with
  | none =>
    cases h
    intro c hc
    simp at hc
  | some l =>
    simp only [spr1FlushCmds] at h
    split_ifs at h with hg
    all_goals try cases h
    all_goals intro c hc
    all_goals simp at hc
    all_goals subst hc
    all_goals simp only [Spr1Cmd.lenOk]
    all_goals omega

theorem spr1Inner_lenOk (pixels : List Nat) (t : Nat) (palPos : Bool)
    (rowIndex width x : Nat) :
    ∀ fuel rangeX pending emitted rx p em,
      (∀ c ∈ emitted, Spr1Cmd.lenOk c) →
      spr1Inner pixels t palPos rowIndex width x fuel rangeX pending emitted =
        .ok (rx, p, em) →
      ∀ c ∈ em, Spr1Cmd.lenOk c := by
  intro fuel
  induction fuel with
  | zero => intro rangeX pending emitted rx p em hacc h; cases h
  | succ fuel ih =>
    intro rangeX pending emitted rx p em hacc h
    unfold spr1Inner at h
    by_cases hx : rangeX < width
    · rw [if_pos hx] at h
      cases hb : spr1InnerBody pixels t palPos rowIndex width x rangeX pending with
      | err e => rw [hb] at h; cases h
      | brk rx2 p2 =>
        rw [hb] at h
        dsimp only at h
        cases h
        exact hacc
      | next rx2 p2 em2 =>
        rw [hb] at h
        dsimp only at h
        refine ih rx2 p2 (emitted ++ em2) rx p em ?_ h
        intro c hc
        rcases List.mem_append.mp hc with h1 | h2
        · exact hacc c h1
        · exact spr1InnerBody_lenOk pixels t palPos rowIndex width x rangeX pending
            rx2 p2 em2 hb c h2
    · rw [if_neg hx] at h
      cases h
      exact hacc

theorem spr1RowStep_lenOk (pixels : List Nat) (t : Nat) (palPos : Bool)
    (rowIndex width x x2 : Nat) (em : List Spr1Cmd)
    (h : spr1RowStep pixels t palPos rowIndex width x = .ok (some (x2, em))) :
    ∀ c ∈ em, Spr1Cmd.lenOk c := by
  unfold spr1RowStep at h
  dsimp only at h
  by_cases hp : pixels.getD (rowIndex + x) 0 = t
  · rw [if_pos hp] at h
    split_ifs at h
    all_goals try cases h
    intro c hc
    simp only [List.mem_singleton] at hc
    subst hc
    simp only [Spr1Cmd.lenOk]
    omega
  · rw [if_neg hp] at h
    cases hin : spr1Inner pixels t palPos rowIndex width x (width + 1) x none [] with
    | error e => rw [hin] at h; cases h
    | ok trip =>
      obtain ⟨rx, p, em2⟩ := trip
      rw [hin] at h
      dsimp only at h
      cases hfl : spr1FlushCmds p with
      | error e => rw [hfl] at h; cases h
      | ok fl =>
        rw [hfl] at h
        dsimp only at h
        cases h
        intro c hc
        rcases List.mem_append.mp hc with h1 | h2
        · exact spr1Inner_lenOk pixels t palPos rowIndex width x (width + 1) x none []
            _ _ _ (by intro c hc; simp at hc) hin c h1
        · exact spr1FlushCmds_lenOk _ _ hfl c h2

theorem spr1XLoop_lenOk (pixels : List Nat) (t : Nat) (palPos : Bool)
    (rowIndex width : Nat) :
    ∀ fuel x acc out, (∀ c ∈ acc, Spr1Cmd.lenOk c) →
      spr1XLoop pixels t palPos rowIndex width fuel x acc = .ok out →
      ∀ c ∈ out, Spr1Cmd.lenOk c := by
  intro fuel
  induction fuel with
  | zero => intro x acc out hacc h; cases h
  | succ fuel ih =>
    intro x acc out hacc h
    unfold spr1XLoop at h
    by_cases hx : x < width
    · rw [if_pos hx] at h
      cases hrs : spr1RowStep pixels t palPos rowIndex width x with
      | error e => rw [hrs] at h; cases h
      | ok oo =>
        rw [hrs] at h
        cases oo with
        | none =>
          dsimp only at h
          cases h
          exact hacc
        | some pr =>
          obtain ⟨x3, em⟩ := pr
          dsimp only at h
          refine ih x3 (acc ++ em) out ?_ h
          intro c hc
          rcases List.mem_append.mp hc with h1 | h2
          · exact hacc c h1
          · exact spr1RowStep_lenOk pixels t palPos rowIndex width x x3 em hrs c h2
    · rw [if_neg hx] at h
      cases h
      exact hacc

theorem spr1YLoop_lenOk (pixels : List Nat) (t : Nat) (palPos : Bool)
    (width height : Nat) :
    ∀ fuel y acc out, (∀ c ∈ acc, Spr1Cmd.lenOk c) →
      spr1YLoop pixels t palPos width height fuel y acc = .ok out →
      ∀ c ∈ out, Spr1Cmd.lenOk c := by
  intro fuel
  induction fuel with
  | zero => intro y acc out hacc h; cases h
  | succ fuel ih =>
    intro y acc out hacc h
    unfold spr1YLoop at h
    by_cases hy : y < height
    · rw [if_pos hy] at h
      dsimp only at h
      split_ifs at h with h1 h2
      · refine ih _ _ out ?_ h
        intro c hc
        rcases List.mem_append.mp hc with h3 | h4
        · exact hacc c h3
        · simp only [List.mem_singleton] at h4
          subst h4
          simp only [Spr1Cmd.lenOk]
          omega
      · cases hre : spr1RowEncode pixels t palPos (y * width) width with
        | error e => rw [hre] at h; cases h
        | ok rowCmds =>
          rw [hre] at h
          dsimp only at h
          split_ifs at h with h3 h4
          refine ih _ _ out ?_ h
          intro c hc
          rcases List.mem_append.mp hc with h5 | h6
          · rcases List.mem_append.mp h5 with h7 | h8
            · exact hacc c h7
            · simp only [List.mem_singleton] at h8
              subst h8
              simp only [Spr1Cmd.lenOk]
              omega
          · exact spr1XLoop_lenOk pixels t palPos (y * width) width (width + 1) 0 [] rowCmds
              (by intro c hc; simp at hc) hre c h6
    · rw [if_neg hy] at h
      cases h
      exact hacc

theorem spr2RowStep_lenOk (pp pz pa : List Nat) (t rowIndex width x x2 : Nat)
    (em : List Spr2Cmd)
    (h : spr2RowStep pp pz pa t rowIndex width x = .ok (some (x2, em))) :
    ∀ c ∈ em, Spr2Cmd.lenOk c := by
  unfold spr2RowStep at h
  dsimp only at h
  split at h
  all_goals split_ifs at h
  all_goals try cases h
  all_goals intro c hc
  all_goals simp only [List.mem_singleton] at hc
  all_goals subst hc
  all_goals simp only [Spr2Cmd.lenOk]
  all_goals omega

theorem spr2XLoop_lenOk (pp pz pa : List Nat) (t rowIndex width : Nat) :
    ∀ fuel x acc out, (∀ c ∈ acc, Spr2Cmd.lenOk c) →
      spr2XLoop pp pz pa t rowIndex width fuel x acc = .ok out →
      ∀ c ∈ out, Spr2Cmd.lenOk c := by
  intro fuel
  induction fuel with
  | zero => intro x acc out hacc h; cases h
  | succ fuel ih =>
    intro x acc out hacc h
    unfold spr2XLoop at h
    by_cases hx : x < width
    · rw [if_pos hx] at h
      cases hrs : spr2RowStep pp pz pa t rowIndex width x with
      | error e => rw [hrs] at h; cases h
      | ok oo =>
        rw [hrs] at h
        cases oo with
        | none =>
          dsimp only at h
          cases h
          exact hacc
        | some pr =>
          obtain ⟨x3, em⟩ := pr
          dsimp only at h
          refine ih x3 (acc ++ em) out ?_ h
          intro c hc
          rcases List.mem_append.mp hc with h1 | h2
          · exact hacc c h1
          · exact spr2RowStep_lenOk pp pz pa t rowIndex width x x3 em hrs c h2
    · rw [if_neg hx] at h
      cases h
      exact hacc

theorem spr2YLoop_lenOk (pp pz pa : List Nat) (t width height : Nat) :
    ∀ fuel y acc out, (∀ c ∈ acc, Spr2Cmd.lenOk c) →
      spr2YLoop pp pz pa t width height fuel y acc = .ok out →
      ∀ c ∈ out, Spr2Cmd.lenOk c := by
  intro fuel
  induction fuel with
  | zero => intro y acc out hacc h; cases h
  | succ fuel ih =>
    intro y acc out hacc h
    unfold spr2YLoop at h
    by_cases hy : y < height
    · rw [if_pos hy] at h
      dsimp only at h
      split_ifs at h with h1 h2 h3
      · refine ih _ _ out ?_ h
        intro c hc
        rcases List.mem_append.mp hc with h4 | h5
        · exact hacc c h4
        · simp only [List.mem_singleton] at h5
          subst h5
          simp only [Spr2Cmd.lenOk]
          omega
      · cases hre : spr2RowEncode pp pz pa t (y * width) width with
        | error e => rw [hre] at h; cases h
        | ok rowCmds =>
          rw [hre] at h
          dsimp only at h
          split_ifs at h with h4 h5
          refine ih _ _ out ?_ h
          intro c hc
          rcases List.mem_append.mp hc with h6 | h7
          · rcases List.mem_append.mp h6 with h8 | h9
            · exact hacc c h8
            · simp only [List.mem_singleton] at h9
              subst h9
              simp only [Spr2Cmd.lenOk]
              omega
          · exact spr2XLoop_lenOk pp pz pa t (y * width) width (width + 1) 0 [] rowCmds
              (by intro c hc; simp at hc) hre c h7
    · rw [if_neg hy] at h
      cases h
      exact hacc

/-- C7 (amended): every command of a successful encoding fits its format's
length field (255 for SPR1 one-byte length fields, 8191 for SPR2 13-bit
fields): the encoder checks each length as the command is emitted and fails
before producing any output when a check fails.  (As the companion
counterexample shows, overflow is not the only failure mode — the SPR1
opaque-repeat path can also abort on an out-of-range pixel access — and the
failure does not carry the offending frame index.) -/
theorem encoding_lengths_within_field_width :
    (∀ (pixels : List Nat) (t : Nat) (palPos : Bool) (width height : Nat)
        (cmds : List Spr1Cmd),
      spr1FrameCmds pixels t palPos width height = .ok cmds →
      ∀ c ∈ cmds, Spr1Cmd.lenOk c) ∧
    (∀ (pp pz pa : List Nat) (t width height : Nat) (cmds : List Spr2Cmd),
      spr2FrameCmds pp pz pa t width height = .ok cmds →
      ∀ c ∈ cmds, Spr2Cmd.lenOk c) := by
  constructor
  · intro pixels t palPos width height cmds h
    unfold spr1FrameCmds at h
    cases hy : spr1YLoop pixels t palPos width height (height + 1) 0 [] with
    | error e => rw [hy] at h; cases h
    | ok body =>
      rw [hy] at h
      cases h
      intro c hc
      rcases List.mem_append.mp hc with h1 | h2
      · rcases List.mem_append.mp h1 with h3 | h4
        · simp only [List.mem_singleton] at h3
          subst h3
          trivial
        · exact spr1YLoop_lenOk pixels t palPos width height (height + 1) 0 [] body
            (by intro c hc; simp at hc) hy c h4
      · simp only [List.mem_singleton] at h2
        subst h2
        trivial
  · intro pp pz pa t width height cmds h
    unfold spr2FrameCmds at h
    cases hy : spr2YLoop pp pz pa t width height (height + 1) 0 [] with
    | error e => rw [hy] at h; cases h
    | ok body =>
      rw [hy] at h
      cases h
      intro c hc
      rcases List.mem_append.mp hc with h1 | h2
      · exact spr2YLoop_lenOk pp pz pa t width height (height + 1) 0 [] body
          (by intro c hc; simp at hc) hy c h1
      · simp only [List.mem_singleton] at h2
        subst h2
        trivial

/-- C7 witness: the theorem applied to concrete frames of both formats. -/
theorem encoding_lengths_within_field_width_witness :
    (∀ c ∈ [Spr1Cmd.startSprite, .start 8, .solid 3 [1, 1, 1, 0], .endSprite],
      Spr1Cmd.lenOk c) ∧
    (∀ c ∈ [Spr2Cmd.start 12, .solid 1 [9, 1], .translucent 1 [8, 2, 25, 0], .stop],
      Spr2Cmd.lenOk c) :=
  ⟨encoding_lengths_within_field_width.1 [1, 1, 2] 0 true 3 1
      [Spr1Cmd.startSprite, .start 8, .solid 3 [1, 1, 1, 0], .endSprite] (by decide),
   encoding_lengths_within_field_width.2 [1, 2] [9, 8] [255, 200] 0 2 1
      [Spr2Cmd.start 12, .solid 1 [9, 1], .translucent 1 [8, 2, 25, 0], .stop] (by decide)⟩
